import Mathlib

/-!
Shallow embedding of `src/malpedia-to-markdown.py` (a Malpedia → markdown
export pipeline) together with theorems settling the specification claims.

Strings are modelled through their character lists (`String.data`), which
matches Python's view of a `str` as a sequence of characters and keeps every
definition kernel-executable.  File-system state is modelled as a list of
files, each abstracted to its path and the `family_id` value written into the
frontmatter (the remaining document body text is out of scope: the spec
explicitly excludes the on-disk text format/templating from THE CORE).
-/

namespace Malpedia

/-! ## Python string primitives -/

/-- The whitespace characters removed by Python's `str.strip()` (also the
character class of `\s` in Python's `re` for ASCII input). -/
def isPyWhitespace (c : Char) : Bool :=
  c == ' ' || c == '\t' || c == '\n' || c == '\r' || c == '\x0b' || c == '\x0c'

/-- Python `str.strip()` with no argument: drop leading and trailing
whitespace. -/
def pyStrip (s : String) : String :=
  String.mk (((s.data.dropWhile isPyWhitespace).reverse.dropWhile isPyWhitespace).reverse)

/-- Python `str.upper()` on ASCII text. -/
def pyUpper (s : String) : String :=
  String.mk (s.data.map Char.toUpper)

/-- Python `str.capitalize()`: first character upper-cased, all remaining
characters lower-cased. -/
def pyCapitalize (s : String) : String :=
  match s.data with
  | [] => ""
  | c :: cs => String.mk (Char.toUpper c :: cs.map Char.toLower)

/-- Split a character list at every occurrence of `sep` (like Python
`str.split(sep)` for a single-character separator: empty pieces are kept). -/
def splitOnChar (sep : Char) : List Char → List (List Char)
  | [] => [[]]
  | c :: rest =>
    if c == sep then [] :: splitOnChar sep rest
    else
      match splitOnChar sep rest with
      | [] => [[c]]
      | piece :: pieces => (c :: piece) :: pieces

/-- One left-to-right pass of Python `str.replace('  ', ' ')`: each
non-overlapping pair of spaces becomes a single space. -/
def replaceDoubleSpace : List Char → List Char
  | [] => []
  | [c] => [c]
  | c1 :: c2 :: rest =>
    if c1 == ' ' && c2 == ' ' then ' ' :: replaceDoubleSpace rest
    else c1 :: replaceDoubleSpace (c2 :: rest)

/-! ## Filename / platform helpers from the script -/

/-- The character class of `re.sub(r'[\\/*?:"<>|]', "", name)` in
`sanitize_filename`. -/
def isFilenameHostile (c : Char) : Bool :=
  c == '\\' || c == '/' || c == '*' || c == '?' || c == ':' ||
  c == '"' || c == '<' || c == '>' || c == '|'

/-- The substitution step of `sanitize_filename` alone:
`re.sub(r'[\\/*?:"<>|]', "", name)` (no `.strip()`). -/
def removeHostileChars (name : String) : String :=
  String.mk (name.data.filter (fun c => !isFilenameHostile c))

/-- `sanitize_filename(name)`: remove the filesystem-hostile characters,
then `.strip()` the result. -/
def sanitize_filename (name : String) : String :=
  pyStrip (removeHostileChars name)

/-- The `platform_map` dictionary of `extract_platform_from_id`. -/
def platform_map : List (String × String) :=
  [("win", "Windows"),
   ("osx", "macOS"),
   ("ios", "iOS"),
   ("android", "Android"),
   ("elf", "Linux/Unix Executable"),
   ("aix", "AIX"),
   ("apk", "Android Package"),
   ("asp", "ASP Web"),
   ("fas", "Flash ActionScript"),
   ("jar", "Java Archive"),
   ("js", "JavaScript"),
   ("jsp", "Java Server Pages"),
   ("php", "PHP Web"),
   ("pl", "Perl"),
   ("ps1", "PowerShell"),
   ("py", "Python"),
   ("sh", "Shell Script"),
   ("symbian", "Symbian OS"),
   ("vbs", "Visual Basic Script")]

/-- `family_id.split('.')[0]`: the prefix before the first dot (the whole
string when no dot occurs, matching Python `split`). -/
def platform_code (family_id : String) : String :=
  String.mk (family_id.data.takeWhile (fun c => c != '.'))

/-- `extract_platform_from_id(family_id)`. -/
def extract_platform_from_id (family_id : String) : String :=
  if family_id.data.contains '.' then
    ((platform_map.lookup (platform_code family_id)).getD
      (pyCapitalize (platform_code family_id)))
  else "Unknown"

/-- The character class of `re.sub(r'[/\\()]', ' ', platform)` in
`get_platform_folder_name`. -/
def isFolderSpecial (c : Char) : Bool :=
  c == '/' || c == '\\' || c == '(' || c == ')'

/-- `get_platform_folder_name(platform)`:
`re.sub(r'[/\\()]', ' ', platform).strip().replace('  ', ' ')`. -/
def get_platform_folder_name (platform : String) : String :=
  String.mk (replaceDoubleSpace
    (pyStrip (String.mk (platform.data.map
      (fun c => if isFolderSpecial c then ' ' else c)))).data)

/-- The character class of `re.sub(r'[/\\() ]', '_', platform)` in
`get_platform_tag`. -/
def isTagSpecial (c : Char) : Bool :=
  c == '/' || c == '\\' || c == '(' || c == ')' || c == ' '

/-- One left-to-right pass of Python `str.replace('__', '_')`. -/
def replaceDoubleUnderscore : List Char → List Char
  | [] => []
  | [c] => [c]
  | c1 :: c2 :: rest =>
    if c1 == '_' && c2 == '_' then '_' :: replaceDoubleUnderscore rest
    else c1 :: replaceDoubleUnderscore (c2 :: rest)

/-- `get_platform_tag(platform)`:
`re.sub(r'[/\\() ]', '_', platform).lower().replace('__', '_')`.
(Computed by the script but never used in its output.) -/
def get_platform_tag (platform : String) : String :=
  String.mk (replaceDoubleUnderscore
    ((platform.data.map (fun c => if isTagSpecial c then '_' else c)).map Char.toLower))

/-! ## Attribution map (Alias Resolver) -/

/-- Python `dict` modelled as an association list; `dictSet` is
`d[k] = v` (overwrite the binding if the key is present, append otherwise). -/
def dictSet : List (String × String) → String → String → List (String × String)
  | [], k, v => [(k, v)]
  | (k2, v2) :: rest, k, v =>
    if k2 == k then (k, v) :: rest else (k2, v2) :: dictSet rest k v

/-- One threat-actor profile document found in a country partition directory,
abstracted to what `build_attribution_map` extracts from its text: the
primary name captured by `re.search(r'\[\[(.*?)\]\]', content)` and the
alternate-name entries captured by the `## OTHER NAME <n>` sections, each
already `.strip()`ped and with surrounding double brackets removed. -/
structure PartitionDoc where
  primary_name : String
  alt_names : List String
deriving DecidableEq, Repr

/-- The `(key, value)` pairs `build_attribution_map` inserts for one
partition document: `attribution_map[primary_name.upper()] = primary_name`,
then `attribution_map[alt_name.upper()] = primary_name` for each alternate. -/
def partitionDocEntries (d : PartitionDoc) : List (String × String) :=
  (pyUpper d.primary_name, d.primary_name) ::
    d.alt_names.map (fun alt_name => (pyUpper alt_name, d.primary_name))

/-- The `(key, value)` pairs `build_attribution_map` inserts for one
spreadsheet row of the Excel fallback (cells as their `str()` rendering,
empty/`None` cells as `""`).  Row guard: `row[0] and row[0] != '?' and
str(row[0]).strip()`; then `primary_name = str(row[0]).strip().upper()` is
inserted for itself, and every comma-separated alternate from columns 1–12
is stripped, upper-cased and inserted with value `primary_name`. -/
def spreadsheetRowEntries (row : List String) : List (String × String) :=
  match row.head? with
  | none => []
  | some c0 =>
    if c0 != "" && c0 != "?" && pyStrip c0 != "" then
      let primary_name := pyUpper (pyStrip c0)
      (primary_name, primary_name) ::
        (((row.drop 1).take 12).map (fun cell =>
          if cell != "" then
            (splitOnChar ',' (pyStrip cell).data).filterMap (fun alt_name =>
              let clean_alt_name := pyUpper (pyStrip (String.mk alt_name))
              if clean_alt_name != "" then some (clean_alt_name, primary_name)
              else none)
          else [])).flatten
    else []

/-- `build_attribution_map`, partition-document branch: insert the entries of
every profile document in scan order. -/
def build_attribution_map_from_docs (docs : List PartitionDoc) : List (String × String) :=
  docs.foldl (fun m d => (partitionDocEntries d).foldl (fun m e => dictSet m e.1 e.2) m) []

/-- `build_attribution_map`, Excel fallback branch: insert the entries of
every data row (`min_row=3` onward) of the relevant sheets in order. -/
def build_attribution_map_from_rows (rows : List (List String)) : List (String × String) :=
  rows.foldl (fun m row => (spreadsheetRowEntries row).foldl (fun m e => dictSet m e.1 e.2) m) []

/-- The per-name resolution step of `resolve_attribution`: upper-case the
name, substitute the mapped primary name when present, otherwise keep the
original. -/
def resolveOne (attribution_map : List (String × String)) (attr : String) : String :=
  match attribution_map.lookup (pyUpper attr) with
  | some primary => primary
  | none => attr

/-- `resolve_attribution(attribution_list, attribution_map)`: the Python
`set` built by resolving each input name (the script finally converts it
back to a list in unspecified order, so the set is the faithful result). -/
def resolve_attribution (attribution_list : List String)
    (attribution_map : List (String × String)) : Finset String :=
  attribution_list.foldl
    (fun resolved_attributions attr =>
      insert (resolveOne attribution_map attr) resolved_attributions) ∅

/-! ## Storage model, Writer and pipeline -/

/-- The fields of a family-detail payload used by the script
(`family_info.get(...)` reads; a missing `common_name` is `none`). -/
structure FamilyInfo where
  common_name : Option String
  alt_names : List String
  attribution : List String
  description : String
  urls : List String
  updated : String
deriving DecidableEq, Repr

/-- A markdown file on storage, abstracted to its path and the `family_id`
value written into its frontmatter line `family_id: {family_id}`.  The rest
of the rendered body is excluded from the model (the spec scopes out the
document text format). -/
structure MDFile where
  path : String
  family_id : String
deriving DecidableEq, Repr

/-- Storage state: the set of markdown files present, newest first. -/
abbrev FS := List MDFile

/-- `os.path.exists(p)` for the modelled storage. -/
def pathExists (fs : FS) (p : String) : Bool :=
  fs.any (fun f => f.path == p)

def base_output_dir : String := "Malware"

/-- `os.path.join(a, b)` for the joins the script performs (`b` is never
absolute: slashes are stripped from folder and file names). -/
def ospath_join (a b : String) : String :=
  if a.data.getLast? == some '/' then a ++ b else a ++ "/" ++ b

/-- The output path `generate_markdown_file` computes for a family with
canonical name `name`:
`os.path.join(os.path.join(base_output_dir, platform_folder), filename + ".md")`. -/
def outputPath (family_id : String) (name : String) : String :=
  ospath_join
    (ospath_join base_output_dir
      (get_platform_folder_name (extract_platform_from_id family_id)))
    (sanitize_filename name ++ ".md")

/-- `generate_markdown_file(family_id, family_info, attribution_map)`:
returns the new storage state and the value the function returns
(`None`, or the platform folder of the file it created).  `if not name:`
covers both a missing key and an empty string.  The `attribution_map`
argument only influences the rendered body text, which is outside the
modelled file content. -/
def generate_markdown_file (family_id : String) (family_info : FamilyInfo)
    (attribution_map : List (String × String)) (fs : FS) : FS × Option String :=
  let name := family_info.common_name.getD ""
  if name == "" then (fs, none)
  else
    let platform := extract_platform_from_id family_id
    let platform_folder := get_platform_folder_name platform
    let output_dir := ospath_join base_output_dir platform_folder
    let filename := sanitize_filename name
    let file_path := ospath_join output_dir (filename ++ ".md")
    if pathExists fs file_path then (fs, none)
    else (⟨file_path, family_id⟩ :: fs, some platform_folder)

/-- The per-platform statistics dictionary `stats_dict`. -/
abbrev Stats := List (String × Nat)

/-- `stats_dict.get(k, 0)`. -/
def getStat (stats : Stats) (k : String) : Nat :=
  (stats.lookup k).getD 0

/-- `stats_dict[k] = stats_dict.get(k, 0) + 1` (overwrite-or-append, like
`dictSet`). -/
def bumpStat : Stats → String → Stats
  | [], k => [(k, 1)]
  | (k2, v2) :: rest, k =>
    if k2 == k then (k, v2 + 1) :: rest else (k2, v2) :: bumpStat rest k

/-- The body of one Writer iteration that obtained `item` from the queue:
generate the file, and bump the statistics entry exactly when a file was
created. -/
def writerProcessItem (attribution_map : List (String × String))
    (stats : Stats) (fs : FS) (item : String × FamilyInfo) : Stats × FS :=
  match generate_markdown_file item.1 item.2 attribution_map fs with
  | (fs', some platform_folder) => (bumpStat stats platform_folder, fs')
  | (fs', none) => (stats, fs')

/-- The Writer's behaviour once the completion flag is set and no further
items arrive: process the queued items in FIFO order, then exit. -/
def writerDrain (attribution_map : List (String × String)) :
    List (String × FamilyInfo) → Stats → FS → Stats × FS
  | [], stats, fs => (stats, fs)
  | item :: rest, stats, fs =>
    match writerProcessItem attribution_map stats fs item with
    | (stats', fs') => writerDrain attribution_map rest stats' fs'

/-- Result of running the Writer loop for a bounded number of iterations. -/
inductive WriterResult where
  | finished (stats : Stats) (fs : FS)
  | stillRunning
deriving DecidableEq, Repr

/-- `file_writer_thread`, modelled after the completion flag and the queue
content have reached their final values (the Fetcher performs no further
`put`s): `while not (stop_event.is_set() and file_queue.empty())`, one queue
item is consumed per iteration when available, a `queue.Empty` timeout
`continue`s, and `fuel` bounds the number of loop iterations observed. -/
def file_writer_thread (attribution_map : List (String × String)) :
    Nat → Bool → List (String × FamilyInfo) → Stats → FS → WriterResult
  | 0, _, _, _, _ => .stillRunning
  | fuel + 1, stop_event_set, file_queue, stats, fs =>
    if stop_event_set && file_queue.isEmpty then .finished stats fs
    else
      match file_queue with
      | [] => file_writer_thread attribution_map fuel stop_event_set [] stats fs
      | item :: rest =>
        match writerProcessItem attribution_map stats fs item with
        | (stats', fs') => file_writer_thread attribution_map fuel stop_event_set rest stats' fs'

/-! ## Existing-Output Index and one pipeline run -/

/-- A `\w` character of Python `re` on ASCII input. -/
def isWordChar (c : Char) : Bool :=
  c.isAlphanum || c == '_'

/-- What `re.search(r'family_id:\s*([\w.]+)', content)` captures on a file
this script generated, whose frontmatter contains the line
`family_id: {family_id}\nlast_updated: ...`: after `family_id:` the regex
skips whitespace and captures the maximal run of word/dot characters.  When
the declared id is all whitespace, `\s*` runs across the newline and the
match captures the following line's key `last_updated`; when the id starts
with any other non-word/dot character there is no match at all. -/
def extractFrontmatterFamilyId (f : MDFile) : Option String :=
  match f.family_id.data.dropWhile isPyWhitespace with
  | [] => some "last_updated"
  | c :: rest =>
    let captured := (c :: rest).takeWhile (fun c => isWordChar c || c == '.')
    if captured.isEmpty then none else some (String.mk captured)

/-- Does `build_existing_files_map` scan this path?  It walks
`base_output_dir`, descends into each immediate subdirectory, and reads the
`.md` files found there — i.e. paths of the form `Malware/<folder>/<file>.md`. -/
def isScannedPath (p : String) : Bool :=
  match splitOnChar '/' p.data with
  | [d, _, file] => String.mk d == base_output_dir && file.reverse.take 3 == ['d', 'm', '.']
  | _ => false

/-- `filename[:-3]`: the scanned file's name without its `.md` extension. -/
def fileStem (p : String) : String :=
  match (splitOnChar '/' p.data).getLast? with
  | some file => String.mk (file.take (file.length - 3))
  | none => ""

/-- Processing of one scanned file by `build_existing_files_map`:
`existing_files[family_id] = filename[:-3]` when the frontmatter yields an
id, otherwise leave the map unchanged. -/
def scanStep (existing_files : List (String × String)) (f : MDFile) :
    List (String × String) :=
  if isScannedPath f.path then
    match extractFrontmatterFamilyId f with
    | some family_id => dictSet existing_files family_id (fileStem f.path)
    | none => existing_files
  else existing_files

/-- `build_existing_files_map(base_output_dir)`: scan the platform folders
and record `family_id -> filename-without-extension` for every markdown file
whose frontmatter yields an id.  (`os.listdir` order is unspecified; the
model uses storage order, which only affects which filename survives for a
duplicated id, not the key set.) -/
def build_existing_files_map (fs : FS) : List (String × String) :=
  fs.foldl scanStep []

/-- One catalog entry as the Fetcher sees it: the family id from the list
request, and the detail response (HTTP status plus parsed payload). -/
structure CatalogEntry where
  family_id : String
  status_code : Nat
  family_info : FamilyInfo
deriving DecidableEq, Repr

/-- `families_to_fetch`: the catalog ids not present in the Existing-Output
Index (`family_id not in existing_files_map`). -/
def families_to_fetch (catalog : List CatalogEntry) (fs : FS) : List CatalogEntry :=
  catalog.filter (fun e => ((build_existing_files_map fs).lookup e.family_id).isNone)

/-- The records the Fetcher actually enqueues: detail request succeeded
(status 200) and the payload has a non-empty `common_name`. -/
def enqueuedEntries (catalog : List CatalogEntry) (fs : FS) : List CatalogEntry :=
  (families_to_fetch catalog fs).filter
    (fun e => e.status_code == 200 && e.family_info.common_name.getD "" != "")

/-- One full run of `main` against the given catalog and storage state,
returning the final statistics and storage.  The producer/consumer pair is
sequentialized: there is a single Writer consuming a FIFO queue, so the
final storage and statistics equal those of processing the enqueued records
in enumeration order (the spec's §5 ordering guarantee). -/
def runPipeline (attribution_map : List (String × String))
    (catalog : List CatalogEntry) (fs : FS) : Stats × FS :=
  writerDrain attribution_map
    ((enqueuedEntries catalog fs).map (fun e => (e.family_id, e.family_info)))
    [] fs

/-! ## Rate limiting (Fetcher loop timing) -/

/-- Does this loop iteration of `main`'s fetch loop reach a `continue`
statement (non-200 status, or missing/empty `common_name`)?  A `continue`
jumps to the next iteration, skipping the `time.sleep(1.1)` at the end of
the loop body. -/
def iterationSkipsSleep (e : CatalogEntry) : Bool :=
  e.status_code != 200 || e.family_info.common_name.getD "" == ""

/-- The dispatch time of each detail request `requests.get(.../get/family/id)`,
starting at time `t`.  Time advances only through `time.sleep(1.1)` (request
latency is taken as zero, a lower bound on real elapsed time); the sleep at
the end of an iteration is executed exactly when the iteration did not
`continue` past it. -/
def detailDispatchTimes : List CatalogEntry → ℚ → List ℚ
  | [], _ => []
  | e :: rest, t =>
    t :: detailDispatchTimes rest (if iterationSkipsSleep e then t else t + 11/10)

/-! ## Progress reporter -/

/-- The numbers interpolated into the progress line. -/
structure ProgressUpdate where
  families_per_sec : ℚ
  percent : ℚ
  remaining : ℚ
  est_remaining_secs : ℚ
  est_remaining_mins : ℚ
deriving DecidableEq, Repr

/-- Result of a Python computation that may raise `ZeroDivisionError`. -/
inductive PyResult (α : Type) where
  | ok (val : α)
  | zeroDivisionError
deriving DecidableEq, Repr

/-- `print_progress_update(processed, total, start_time)` as a function of
the processed count, the total count and the elapsed time
`time.time() - start_time`.  Each Python `/` becomes an exact division
guarded by a zero-divisor check that raises `ZeroDivisionError` exactly when
Python would; `.ok (some u)` means a progress line is logged with the
numbers `u`, `.ok none` means the call returns without emitting anything. -/
def print_progress_update (processed total : Nat) (elapsed : ℚ) :
    PyResult (Option ProgressUpdate) :=
  if 0 < processed then
    if elapsed = 0 then .zeroDivisionError
    else
      let families_per_sec : ℚ := (processed : ℚ) / elapsed
      let remaining : ℚ := (total : ℚ) - (processed : ℚ)
      if 0 < families_per_sec then
        let est_remaining_secs := remaining / families_per_sec
        if (total : ℚ) = 0 then .zeroDivisionError
        else
          .ok (some ⟨families_per_sec, (processed : ℚ) / (total : ℚ) * 100,
            remaining, est_remaining_secs, est_remaining_secs / 60⟩)
      else .ok none
  else .ok none

/-! ## General lemmas -/

lemma lookup_eq_some_of_mem {l : List (String × String)} {a b : String}
    (hnd : (l.map Prod.fst).Nodup) (h : (a, b) ∈ l) : l.lookup a = some b := by
  induction l with
  | nil => simp at h
  | cons p rest ih =>
    obtain ⟨k, v⟩ := p
    simp only [List.map_cons, List.nodup_cons] at hnd
    rcases List.mem_cons.mp h with heq | hmem
    · injection heq with h1 h2
      subst h1; subst h2
      simp [List.lookup]
    · have hne : a ≠ k := by
        rintro rfl
        exact hnd.1 (List.mem_map.mpr ⟨(a, b), hmem, rfl⟩)
      simpa [List.lookup, beq_false_of_ne hne] using ih hnd.2 hmem

lemma lookup_eq_none_of_forall_not_mem {l : List (String × String)} {a : String}
    (h : ∀ b, (a, b) ∉ l) : l.lookup a = none := by
  induction l with
  | nil => rfl
  | cons p rest ih =>
    obtain ⟨k, v⟩ := p
    have hne : a ≠ k := by
      rintro rfl
      exact h v (List.mem_cons_self _ _)
    simpa [List.lookup, beq_false_of_ne hne] using
      ih (fun b hb => h b (List.mem_cons_of_mem _ hb))

lemma mem_foldl_insert (f : String → String) (l : List String) (s : Finset String)
    (x : String) :
    x ∈ l.foldl (fun acc a => insert (f a) acc) s ↔ x ∈ s ∨ ∃ a ∈ l, f a = x := by
  induction l generalizing s with
  | nil => simp
  | cons a l ih =>
    simp only [List.foldl_cons, ih, Finset.mem_insert, List.mem_cons]
    constructor
    · rintro ((rfl | hs) | ⟨b, hb, rfl⟩)
      · exact Or.inr ⟨a, Or.inl rfl, rfl⟩
      · exact Or.inl hs
      · exact Or.inr ⟨b, Or.inr hb, rfl⟩
    · rintro (hs | ⟨b, rfl | hb, rfl⟩)
      · exact Or.inl (Or.inr hs)
      · exact Or.inl (Or.inl rfl)
      · exact Or.inr ⟨b, hb, rfl⟩

/-! ## Claim theorems: pure helpers -/

/-- Claim C7 counterexample: on the input `"Foo "` the code returns `"Foo"`,
while removing only the nine listed characters would return `"Foo "`
unchanged — `sanitize_filename` additionally strips leading and trailing
whitespace. -/
theorem sanitize_filename_counterexample :
    sanitize_filename "Foo " = "Foo" ∧ removeHostileChars "Foo " = "Foo " ∧
      ("Foo" : String) ≠ "Foo " := by
  refine ⟨by decide, by decide, by decide⟩

/-- Claim C7 (amended): the sanitized filename equals the input with exactly
the characters `\ / * ? : " < > |` removed and the result then stripped of
leading and trailing whitespace; in particular it equals the pure removal
whenever the removal result has no leading or trailing whitespace. -/
theorem sanitize_filename_spec :
    (∀ name, sanitize_filename name = pyStrip (removeHostileChars name)) ∧
    (∀ name, (removeHostileChars name).data =
      name.data.filter (fun c => !isFilenameHostile c)) ∧
    (∀ name,
      (removeHostileChars name).data.dropWhile isPyWhitespace =
        (removeHostileChars name).data →
      (removeHostileChars name).data.reverse.dropWhile isPyWhitespace =
        (removeHostileChars name).data.reverse →
      sanitize_filename name = removeHostileChars name) := by
  refine ⟨fun name => rfl, fun name => rfl, fun name h1 h2 => ?_⟩
  show pyStrip (removeHostileChars name) = removeHostileChars name
  unfold pyStrip
  rw [h1, h2, List.reverse_reverse]

/-- Claim C7 witness: a name with no boundary whitespace after removal is
returned exactly as the removal result. -/
theorem sanitize_filename_spec_witness :
    sanitize_filename "Foo" = removeHostileChars "Foo" :=
  sanitize_filename_spec.2.2 "Foo" (by decide) (by decide)

/-- Claim C9: when the family id contains a dot, the platform is the display
name mapped from the prefix before the first dot when that prefix is one of
the 19 known platform codes, and the Python-capitalized prefix otherwise;
ids without a dot classify as `"Unknown"`. -/
theorem extract_platform_spec :
    (∀ family_id : String, family_id.data.contains '.' = false →
      extract_platform_from_id family_id = "Unknown") ∧
    (∀ family_id : String, family_id.data.contains '.' = true →
      (∀ display, (platform_code family_id, display) ∈ platform_map →
        extract_platform_from_id family_id = display) ∧
      ((∀ display, (platform_code family_id, display) ∉ platform_map) →
        extract_platform_from_id family_id = pyCapitalize (platform_code family_id))) ∧
    platform_map.length = 19 := by
  refine ⟨?_, ?_, rfl⟩
  · intro fid h
    have h' : '.' ∉ fid.data := by simpa using h
    simp [extract_platform_from_id, h, h']
  · intro fid h
    have h' : '.' ∈ fid.data := by simpa using h
    constructor
    · intro display hmem
      have hnd : (platform_map.map Prod.fst).Nodup := by decide
      simp [extract_platform_from_id, h, h', lookup_eq_some_of_mem hnd hmem]
    · intro hnone
      simp [extract_platform_from_id, h, h',
        lookup_eq_none_of_forall_not_mem hnone]

/-- Claim C9 witness: a known platform code and an id without a dot. -/
theorem extract_platform_spec_witness :
    extract_platform_from_id "osx.thing" = "macOS" ∧
      extract_platform_from_id "nodothere" = "Unknown" :=
  ⟨(extract_platform_spec.2.1 "osx.thing" (by decide)).1 "macOS" (by decide),
   extract_platform_spec.1 "nodothere" (by decide)⟩

/-- Claim C4: resolution substitutes the mapped canonical form of the
upper-cased name when present and passes the original through otherwise,
returning the set of per-name results; on the claim's test vector the result
is exactly `{"Group Alpha", "Unknown Actor"}`. -/
theorem resolve_attribution_spec :
    (∀ (attribution_map : List (String × String)) (names : List String) (x : String),
      x ∈ resolve_attribution names attribution_map ↔
        ∃ attr ∈ names, resolveOne attribution_map attr = x) ∧
    resolve_attribution ["apt-x", "Group Alpha", "Unknown Actor"]
        [("APT-X", "Group Alpha")] = {"Group Alpha", "Unknown Actor"} := by
  constructor
  · intro amap names x
    simpa using mem_foldl_insert (resolveOne amap) names ∅ x
  · decide

/-! ## Writer lemmas -/

lemma print_progress_update_eq (p t : Nat) (e : ℚ) :
    print_progress_update p t e =
      if 0 < p then
        if e = 0 then .zeroDivisionError
        else if 0 < (p : ℚ) / e then
          if (t : ℚ) = 0 then .zeroDivisionError
          else .ok (some ⟨(p : ℚ) / e, (p : ℚ) / (t : ℚ) * 100, (t : ℚ) - (p : ℚ),
            ((t : ℚ) - (p : ℚ)) / ((p : ℚ) / e),
            (((t : ℚ) - (p : ℚ)) / ((p : ℚ) / e)) / 60⟩)
        else .ok none
      else .ok none := rfl

lemma generate_markdown_file_eq (fid : String) (info : FamilyInfo)
    (amap : List (String × String)) (fs : FS) :
    generate_markdown_file fid info amap fs =
      if info.common_name.getD "" == "" then (fs, none)
      else if pathExists fs (outputPath fid (info.common_name.getD "")) then (fs, none)
      else (⟨outputPath fid (info.common_name.getD ""), fid⟩ :: fs,
        some (get_platform_folder_name (extract_platform_from_id fid))) := rfl

lemma generate_skip_empty_name {fid : String} {info : FamilyInfo}
    {amap : List (String × String)} {fs : FS}
    (h : info.common_name.getD "" = "") :
    generate_markdown_file fid info amap fs = (fs, none) := by
  rw [generate_markdown_file_eq, if_pos (by simp [h])]

lemma generate_skip_existing {fid : String} {info : FamilyInfo}
    {amap : List (String × String)} {fs : FS}
    (h : pathExists fs (outputPath fid (info.common_name.getD "")) = true) :
    generate_markdown_file fid info amap fs = (fs, none) := by
  rw [generate_markdown_file_eq]
  simp [h, ite_self]

lemma writerProcessItem_skip_empty_name {fid : String} {info : FamilyInfo}
    {amap : List (String × String)} {stats : Stats} {fs : FS}
    (h : info.common_name.getD "" = "") :
    writerProcessItem amap stats fs (fid, info) = (stats, fs) := by
  simp [writerProcessItem, generate_skip_empty_name h]

lemma writerProcessItem_skip_existing {fid : String} {info : FamilyInfo}
    {amap : List (String × String)} {stats : Stats} {fs : FS}
    (h : pathExists fs (outputPath fid (info.common_name.getD "")) = true) :
    writerProcessItem amap stats fs (fid, info) = (stats, fs) := by
  simp [writerProcessItem, generate_skip_existing h]

lemma writerProcessItem_fs_append (amap : List (String × String)) (stats : Stats)
    (fs : FS) (item : String × FamilyInfo) :
    ∃ pre, (writerProcessItem amap stats fs item).2 = pre ++ fs := by
  obtain ⟨fid, info⟩ := item
  unfold writerProcessItem
  rw [generate_markdown_file_eq]
  split_ifs
  · exact ⟨[], rfl⟩
  · exact ⟨[], rfl⟩
  · exact ⟨[⟨outputPath fid (info.common_name.getD ""), fid⟩], rfl⟩

lemma writerDrain_fs_append (amap : List (String × String)) :
    ∀ (items : List (String × FamilyInfo)) (stats : Stats) (fs : FS),
      ∃ pre, (writerDrain amap items stats fs).2 = pre ++ fs := by
  intro items
  induction items with
  | nil => exact fun stats fs => ⟨[], rfl⟩
  | cons item rest ih =>
    intro stats fs
    obtain ⟨pre1, h1⟩ := writerProcessItem_fs_append amap stats fs item
    obtain ⟨pre2, h2⟩ := ih (writerProcessItem amap stats fs item).1
      (writerProcessItem amap stats fs item).2
    refine ⟨pre2 ++ pre1, ?_⟩
    show (writerDrain amap rest (writerProcessItem amap stats fs item).1
      (writerProcessItem amap stats fs item).2).2 = pre2 ++ pre1 ++ fs
    rw [h2, h1, List.append_assoc]

lemma pathExists_append_right {fs : FS} {p : String} (pre : FS)
    (h : pathExists fs p = true) : pathExists (pre ++ fs) p = true := by
  simp only [pathExists, List.any_append, Bool.or_eq_true]
  exact Or.inr h

lemma writerProcessItem_path_exists {amap : List (String × String)} {stats : Stats}
    {fs : FS} {fid : String} {info : FamilyInfo}
    (hname : info.common_name.getD "" ≠ "") :
    pathExists (writerProcessItem amap stats fs (fid, info)).2
      (outputPath fid (info.common_name.getD "")) = true := by
  unfold writerProcessItem
  rw [generate_markdown_file_eq]
  split_ifs with h1 h2
  · exact absurd (by simpa using h1) hname
  · exact h2
  · simp [pathExists]

lemma writerDrain_path_exists (amap : List (String × String)) :
    ∀ (items : List (String × FamilyInfo)) (stats : Stats) (fs : FS)
      (fid : String) (info : FamilyInfo), (fid, info) ∈ items →
      info.common_name.getD "" ≠ "" →
      pathExists (writerDrain amap items stats fs).2
        (outputPath fid (info.common_name.getD "")) = true := by
  intro items
  induction items with
  | nil => intro stats fs fid info h; simp at h
  | cons item rest ih =>
    intro stats fs fid info hmem hname
    rcases List.mem_cons.mp hmem with heq | hmem'
    · subst heq
      show pathExists (writerDrain amap rest (writerProcessItem amap stats fs (fid, info)).1
        (writerProcessItem amap stats fs (fid, info)).2).2 _ = true
      obtain ⟨pre, hpre⟩ := writerDrain_fs_append amap rest
        (writerProcessItem amap stats fs (fid, info)).1
        (writerProcessItem amap stats fs (fid, info)).2
      rw [hpre]
      exact pathExists_append_right pre (writerProcessItem_path_exists hname)
    · exact ih _ _ fid info hmem' hname

lemma writerDrain_noop (amap : List (String × String)) :
    ∀ (items : List (String × FamilyInfo)) (stats : Stats) (fs : FS),
      (∀ item ∈ items, item.2.common_name.getD "" = "" ∨
        pathExists fs (outputPath item.1 (item.2.common_name.getD "")) = true) →
      writerDrain amap items stats fs = (stats, fs) := by
  intro items
  induction items with
  | nil => intro stats fs _; rfl
  | cons item rest ih =>
    intro stats fs h
    obtain ⟨fid, info⟩ := item
    have hstep : writerProcessItem amap stats fs (fid, info) = (stats, fs) := by
      rcases h (fid, info) (List.mem_cons_self _ _) with hempty | hpath
      · exact writerProcessItem_skip_empty_name hempty
      · exact writerProcessItem_skip_existing hpath
    show writerDrain amap rest (writerProcessItem amap stats fs (fid, info)).1
      (writerProcessItem amap stats fs (fid, info)).2 = (stats, fs)
    rw [hstep]
    exact ih stats fs (fun it hit => h it (List.mem_cons_of_mem _ hit))

lemma fwt_succ_nil (amap : List (String × String)) (n : Nat) (stop : Bool)
    (stats : Stats) (fs : FS) :
    file_writer_thread amap (n + 1) stop [] stats fs =
      if stop then .finished stats fs
      else file_writer_thread amap n stop [] stats fs := by
  cases stop <;> rfl

lemma fwt_succ_cons (amap : List (String × String)) (n : Nat) (stop : Bool)
    (item : String × FamilyInfo) (rest : List (String × FamilyInfo))
    (stats : Stats) (fs : FS) :
    file_writer_thread amap (n + 1) stop (item :: rest) stats fs =
      file_writer_thread amap n stop rest
        (writerProcessItem amap stats fs item).1
        (writerProcessItem amap stats fs item).2 := by
  cases stop <;> rfl

/-! ## Claim theorems: Writer loop and required-field gate -/

/-- Claim C2: the Writer loop returns only from a state where the completion
flag is set and the queue is empty, and when the flag is set with items still
queued every queued item is processed (in FIFO order) before the loop exits. -/
theorem writer_exit_condition :
    (∀ (amap : List (String × String)) (fuel : Nat) (stop : Bool)
      (q : List (String × FamilyInfo)) (stats : Stats) (fs : FS)
      (stats' : Stats) (fs' : FS),
      file_writer_thread amap fuel stop q stats fs = .finished stats' fs' →
        stop = true ∧ (stats', fs') = writerDrain amap q stats fs) ∧
    (∀ (amap : List (String × String)) (q : List (String × FamilyInfo))
      (stats : Stats) (fs : FS),
      file_writer_thread amap (q.length + 1) true q stats fs =
        .finished (writerDrain amap q stats fs).1 (writerDrain amap q stats fs).2) := by
  constructor
  · intro amap fuel
    induction fuel with
    | zero => intro stop q stats fs stats' fs' h; exact absurd h (by simp [file_writer_thread])
    | succ n ih =>
      intro stop q stats fs stats' fs' h
      cases q with
      | nil =>
        cases stop with
        | true =>
          rw [fwt_succ_nil, if_pos rfl] at h
          injection h with h1 h2
          subst h1; subst h2
          exact ⟨rfl, rfl⟩
        | false =>
          rw [fwt_succ_nil, if_neg Bool.false_ne_true] at h
          exact ih false [] stats fs stats' fs' h
      | cons item rest =>
        rw [fwt_succ_cons] at h
        obtain ⟨hstop, him⟩ := ih stop rest
          (writerProcessItem amap stats fs item).1
          (writerProcessItem amap stats fs item).2 stats' fs' h
        exact ⟨hstop, him⟩
  · intro amap q
    induction q with
    | nil => intro stats fs; rfl
    | cons item rest ih =>
      intro stats fs
      show file_writer_thread amap (rest.length + 1) true rest
        (writerProcessItem amap stats fs item).1
        (writerProcessItem amap stats fs item).2 = _
      exact ih (writerProcessItem amap stats fs item).1
        (writerProcessItem amap stats fs item).2

/-- Claim C2 witness: the loop with the flag set and an empty queue exits at
once with nothing processed. -/
theorem writer_exit_condition_witness :
    true = true ∧ (([], []) : Stats × FS) = writerDrain [] [] [] [] :=
  writer_exit_condition.1 [] 1 true [] [] [] [] [] rfl

/-- Claim C3: a record with a missing or empty canonical name creates no file
and bumps no statistics entry at the Writer, and is never enqueued by the
Fetcher in the first place. -/
theorem required_field_gate :
    (∀ (family_id : String) (info : FamilyInfo) (amap : List (String × String))
      (fs : FS), info.common_name.getD "" = "" →
      generate_markdown_file family_id info amap fs = (fs, none) ∧
      ∀ stats : Stats, writerProcessItem amap stats fs (family_id, info) = (stats, fs)) ∧
    (∀ (catalog : List CatalogEntry) (fs : FS) (e : CatalogEntry),
      e ∈ enqueuedEntries catalog fs → e.family_info.common_name.getD "" ≠ "") := by
  constructor
  · intro fid info amap fs h
    exact ⟨generate_skip_empty_name h, fun stats => writerProcessItem_skip_empty_name h⟩
  · intro catalog fs e he
    have := (List.mem_filter.mp he).2
    simp only [Bool.and_eq_true, bne_iff_ne, ne_eq] at this
    exact this.2

/-- Claim C3 witness: a record with no `common_name` leaves storage and
statistics untouched, and a well-formed record that is enqueued indeed has a
non-empty name. -/
theorem required_field_gate_witness :
    (generate_markdown_file "win.x" ⟨none, [], [], "", [], ""⟩ [] [] = ([], none) ∧
      writerProcessItem [] [] [] ("win.x", ⟨none, [], [], "", [], ""⟩) = ([], [])) ∧
    (⟨"win.y", 200, ⟨some "Foo", [], [], "", [], ""⟩⟩ : CatalogEntry).family_info.common_name.getD "" ≠ "" := by
  refine ⟨⟨(required_field_gate.1 "win.x" ⟨none, [], [], "", [], ""⟩ [] [] rfl).1,
    (required_field_gate.1 "win.x" ⟨none, [], [], "", [], ""⟩ [] [] rfl).2 []⟩, ?_⟩
  exact required_field_gate.2 [⟨"win.y", 200, ⟨some "Foo", [], [], "", [], ""⟩⟩] []
    ⟨"win.y", 200, ⟨some "Foo", [], [], "", [], ""⟩⟩ (by decide)

/-! ## Claim theorems: rate limiting and progress reporter -/

/-- Claim C8 (code bug): when the detail response for the first family is a
non-200 status, the `continue` skips the end-of-loop `time.sleep(1.1)` and
the next detail request is dispatched with zero delay — the inter-request
gap is 0, not at least 1.1. -/
theorem rate_limit_skip_counterexample :
    detailDispatchTimes
      [⟨"win.aaa", 404, ⟨some "A", [], [], "", [], ""⟩⟩,
       ⟨"win.bbb", 200, ⟨some "B", [], [], "", [], ""⟩⟩] 0 = [0, 0] ∧
    ¬ ((11 : ℚ)/10 ≤ 0 - 0) := by
  constructor
  · decide
  · norm_num

/-- Claim C10: the progress reporter emits nothing (and performs no
arithmetic, in particular raises no `ZeroDivisionError`) when the processed
count is 0; its division by the elapsed time can only be reached when the
processed count is positive, and a progress line is only emitted — hence the
division by the throughput only executed — when the computed throughput is
positive. -/
theorem print_progress_update_spec :
    (∀ (total : Nat) (elapsed : ℚ), print_progress_update 0 total elapsed = .ok none) ∧
    (∀ (processed total : Nat) (elapsed : ℚ),
      print_progress_update processed total elapsed ≠ .ok none → 0 < processed) ∧
    (∀ (processed total : Nat) (elapsed : ℚ) (u : ProgressUpdate),
      print_progress_update processed total elapsed = .ok (some u) →
        0 < u.families_per_sec ∧ u.families_per_sec = (processed : ℚ) / elapsed) := by
  refine ⟨fun total elapsed => rfl, ?_, ?_⟩
  · intro p t e h
    by_contra hp
    have hzero : p = 0 := by omega
    subst hzero
    exact h rfl
  · intro p t e u h
    rw [print_progress_update_eq] at h
    by_cases h1 : 0 < p
    · rw [if_pos h1] at h
      by_cases h2 : e = 0
      · rw [if_pos h2] at h
        exact absurd h (by simp)
      · rw [if_neg h2] at h
        by_cases h3 : 0 < (p : ℚ) / e
        · rw [if_pos h3] at h
          by_cases h4 : (t : ℚ) = 0
          · rw [if_pos h4] at h
            exact absurd h (by simp)
          · rw [if_neg h4] at h
            injection h with h'
            injection h' with h''
            subst h''
            exact ⟨h3, rfl⟩
        · rw [if_neg h3] at h
          exact absurd h (by simp)
    · rw [if_neg h1] at h
      exact absurd h (by simp)

/-- Claim C10 witness: a zero processed count emits nothing; a call that
raises on `elapsed = 0` indeed had a positive processed count; an emitted
update carries a positive throughput equal to processed/elapsed. -/
theorem print_progress_update_spec_witness :
    print_progress_update 0 7 3 = .ok none ∧
    0 < 5 ∧
    (0 < ((5 : ℚ)/2) ∧ ((5 : ℚ)/2) = (5 : ℚ)/2) := by
  refine ⟨print_progress_update_spec.1 7 3,
    print_progress_update_spec.2.1 5 10 0 (by decide), ?_⟩
  have h : print_progress_update 5 10 2 = .ok (some ⟨5/2, 50, 5, 2, 1/30⟩) := by
    norm_num [print_progress_update]
  exact print_progress_update_spec.2.2 5 10 2 ⟨5/2, 50, 5, 2, 1/30⟩ h

/-! ## Existing-Output Index lemmas -/

lemma lookup_dictSet_isSome (m : List (String × String)) (k v k' : String) :
    ((dictSet m k v).lookup k').isSome = true ↔
      k' = k ∨ (m.lookup k').isSome = true := by
  induction m with
  | nil =>
    by_cases h : k' = k
    · subst h; simp [dictSet, List.lookup]
    · simp [dictSet, List.lookup, beq_false_of_ne h, h]
  | cons p rest ih =>
    obtain ⟨k2, v2⟩ := p
    cases hbeq : k2 == k with
    | true =>
      have hk : k2 = k := eq_of_beq hbeq
      subst hk
      have hset : dictSet ((k2, v2) :: rest) k2 v = (k2, v) :: rest := by
        simp [dictSet]
      rw [hset]
      by_cases h' : k' = k2
      · subst h'; simp [List.lookup]
      · simp [List.lookup, beq_false_of_ne h', h']
    | false =>
      have hset : dictSet ((k2, v2) :: rest) k v = (k2, v2) :: dictSet rest k v := by
        simp [dictSet, hbeq]
      rw [hset]
      by_cases h' : k' = k2
      · subst h'; simp [List.lookup]
      · simp [List.lookup, beq_false_of_ne h', ih]

lemma lookup_scanStep_isSome (acc : List (String × String)) (f : MDFile) (k : String) :
    ((scanStep acc f).lookup k).isSome = true ↔
      (isScannedPath f.path = true ∧ extractFrontmatterFamilyId f = some k) ∨
        (acc.lookup k).isSome = true := by
  unfold scanStep
  by_cases hscan : isScannedPath f.path = true
  · rw [if_pos hscan]
    cases hex : extractFrontmatterFamilyId f with
    | none => simp [hscan, hex]
    | some fid =>
      rw [lookup_dictSet_isSome]
      simp only [hscan, hex, true_and, Option.some.injEq]
      constructor
      · rintro (rfl | h)
        · exact Or.inl rfl
        · exact Or.inr h
      · rintro (rfl | h)
        · exact Or.inl rfl
        · exact Or.inr h
  · rw [if_neg hscan]
    simp [hscan]

lemma lookup_foldl_scanStep (fs : FS) :
    ∀ (acc : List (String × String)) (k : String),
      ((fs.foldl scanStep acc).lookup k).isSome = true ↔
        (acc.lookup k).isSome = true ∨
          ∃ f ∈ fs, isScannedPath f.path = true ∧
            extractFrontmatterFamilyId f = some k := by
  induction fs with
  | nil => intro acc k; simp
  | cons f rest ih =>
    intro acc k
    simp only [List.foldl_cons, ih, lookup_scanStep_isSome, List.mem_cons]
    constructor
    · rintro (((hf | hacc)) | ⟨g, hg, hgp⟩)
      · exact Or.inr ⟨f, Or.inl rfl, hf⟩
      · exact Or.inl hacc
      · exact Or.inr ⟨g, Or.inr hg, hgp⟩
    · rintro (hacc | ⟨g, rfl | hg, hgp⟩)
      · exact Or.inl (Or.inr hacc)
      · exact Or.inl (Or.inl hgp)
      · exact Or.inr ⟨g, hg, hgp⟩

lemma lookup_build_existing_isSome (fs : FS) (k : String) :
    ((build_existing_files_map fs).lookup k).isSome = true ↔
      ∃ f ∈ fs, isScannedPath f.path = true ∧
        extractFrontmatterFamilyId f = some k := by
  unfold build_existing_files_map
  rw [lookup_foldl_scanStep]
  simp [List.lookup]

lemma lookup_build_existing_mono {fs : FS} (pre : FS) {k : String}
    (h : ((build_existing_files_map fs).lookup k).isSome = true) :
    ((build_existing_files_map (pre ++ fs)).lookup k).isSome = true := by
  rw [lookup_build_existing_isSome] at h ⊢
  obtain ⟨f, hf, hp⟩ := h
  exact ⟨f, List.mem_append_right pre hf, hp⟩

lemma enqueued_mono {catalog : List CatalogEntry} {fs : FS} (pre : FS) {e : CatalogEntry}
    (h : e ∈ enqueuedEntries catalog (pre ++ fs)) : e ∈ enqueuedEntries catalog fs := by
  unfold enqueuedEntries families_to_fetch at h ⊢
  rw [List.mem_filter] at h ⊢
  obtain ⟨hmem, hok⟩ := h
  rw [List.mem_filter] at hmem
  obtain ⟨hcat, hnone⟩ := hmem
  refine ⟨List.mem_filter.mpr ⟨hcat, ?_⟩, hok⟩
  rw [Option.isNone_iff_eq_none] at hnone ⊢
  by_contra hne
  have hsome : ((build_existing_files_map fs).lookup e.family_id).isSome = true := by
    cases hcase : (build_existing_files_map fs).lookup e.family_id with
    | none => exact absurd hcase hne
    | some v => rfl
  have := lookup_build_existing_mono pre hsome
  rw [hnone] at this
  exact absurd this (by simp)

/-! ## Claim theorem: idempotence of a run -/

/-- Claim C6: a second run against an unchanged catalog and the storage left
by the first run creates zero new document files (and therefore records no
statistics): every id the first run handled is either filtered out by the
Existing-Output Index built from the first run's output, or skipped by the
Writer's path-existence check. -/
theorem pipeline_idempotent :
    ∀ (amap : List (String × String)) (catalog : List CatalogEntry) (fs : FS),
      runPipeline amap catalog (runPipeline amap catalog fs).2 =
        ([], (runPipeline amap catalog fs).2) := by
  intro amap catalog fs
  unfold runPipeline
  set fs1 := (writerDrain amap
    ((enqueuedEntries catalog fs).map (fun e => (e.family_id, e.family_info))) [] fs).2
    with hfs1
  apply writerDrain_noop
  intro item hitem
  rw [List.mem_map] at hitem
  obtain ⟨e, he, rfl⟩ := hitem
  obtain ⟨pre, hpre⟩ := writerDrain_fs_append amap
    ((enqueuedEntries catalog fs).map (fun e => (e.family_id, e.family_info))) [] fs
  have he1 : e ∈ enqueuedEntries catalog fs := by
    apply enqueued_mono pre
    rw [← hpre, ← hfs1]
    exact he
  have hname : e.family_info.common_name.getD "" ≠ "" := by
    have := (List.mem_filter.mp he1).2
    simp only [Bool.and_eq_true, bne_iff_ne, ne_eq] at this
    exact this.2
  right
  rw [hfs1]
  exact writerDrain_path_exists amap _ [] fs e.family_id e.family_info
    (List.mem_map.mpr ⟨e, he1, rfl⟩) hname

/-! ## Duplicate-output invariant (for Claim C1) -/

/-- Invariant preserved by the pipeline when each record id always carries
the same detail payload (`details`): every stored file sits at the output
path computed from its declared id's canonical name, and no two files share
a path. -/
def WriterInv (details : String → FamilyInfo) (fs : FS) : Prop :=
  (∀ f ∈ fs,
    f.path = outputPath f.family_id ((details f.family_id).common_name.getD "")) ∧
  (fs.map (fun f => f.path)).Nodup

lemma writerProcessItem_fs_cases (amap : List (String × String)) (stats : Stats)
    (fs : FS) (fid : String) (info : FamilyInfo) :
    (writerProcessItem amap stats fs (fid, info)).2 = fs ∨
      ((writerProcessItem amap stats fs (fid, info)).2 =
        ⟨outputPath fid (info.common_name.getD ""), fid⟩ :: fs ∧
        pathExists fs (outputPath fid (info.common_name.getD "")) = false) := by
  unfold writerProcessItem
  rw [generate_markdown_file_eq]
  split_ifs with h1 h2
  · exact Or.inl rfl
  · exact Or.inl rfl
  · exact Or.inr ⟨rfl, by simpa using h2⟩

lemma writerProcessItem_inv {details : String → FamilyInfo}
    {amap : List (String × String)} {stats : Stats} {fs : FS} {fid : String}
    (hinv : WriterInv details fs) :
    WriterInv details (writerProcessItem amap stats fs (fid, details fid)).2 := by
  rcases writerProcessItem_fs_cases amap stats fs fid (details fid) with hsame | ⟨hnew, hfresh⟩
  · rw [hsame]; exact hinv
  · rw [hnew]
    obtain ⟨hpath, hnd⟩ := hinv
    constructor
    · intro f hf
      rcases List.mem_cons.mp hf with rfl | hf'
      · rfl
      · exact hpath f hf'
    · rw [List.map_cons, List.nodup_cons]
      refine ⟨?_, hnd⟩
      intro hmem
      have : pathExists fs (outputPath fid ((details fid).common_name.getD "")) = true := by
        rw [pathExists]
        rw [List.any_eq_true]
        rw [List.mem_map] at hmem
        obtain ⟨g, hg, hgp⟩ := hmem
        exact ⟨g, hg, by simp [hgp]⟩
      rw [this] at hfresh
      exact absurd hfresh (by simp)

lemma writerDrain_inv {details : String → FamilyInfo} (amap : List (String × String)) :
    ∀ (items : List (String × FamilyInfo)) (stats : Stats) (fs : FS),
      (∀ item ∈ items, item.2 = details item.1) →
      WriterInv details fs →
      WriterInv details (writerDrain amap items stats fs).2 := by
  intro items
  induction items with
  | nil => intro stats fs _ hinv; exact hinv
  | cons item rest ih =>
    intro stats fs hitems hinv
    obtain ⟨fid, info⟩ := item
    have hdet : info = details fid := hitems (fid, info) (List.mem_cons_self _ _)
    subst hdet
    show WriterInv details (writerDrain amap rest
      (writerProcessItem amap stats fs (fid, details fid)).1
      (writerProcessItem amap stats fs (fid, details fid)).2).2
    exact ih _ _ (fun it hit => hitems it (List.mem_cons_of_mem _ hit))
      (writerProcessItem_inv hinv)

lemma runPipeline_inv {details : String → FamilyInfo} (amap : List (String × String))
    (catalog : List CatalogEntry) (fs : FS)
    (hcat : ∀ e ∈ catalog, e.family_info = details e.family_id)
    (hinv : WriterInv details fs) :
    WriterInv details (runPipeline amap catalog fs).2 := by
  unfold runPipeline
  apply writerDrain_inv
  · intro item hitem
    rw [List.mem_map] at hitem
    obtain ⟨e, he, rfl⟩ := hitem
    have he' : e ∈ catalog := by
      have h1 := (List.mem_filter.mp he).1
      exact (List.mem_filter.mp h1).1
    exact hcat e he'
  · exact hinv

lemma runsFold_inv {details : String → FamilyInfo} (amap : List (String × String)) :
    ∀ (runs : List (List CatalogEntry)) (fs : FS),
      (∀ catalog ∈ runs, ∀ e ∈ catalog, e.family_info = details e.family_id) →
      WriterInv details fs →
      WriterInv details
        (runs.foldl (fun fs catalog => (runPipeline amap catalog fs).2) fs) := by
  intro runs
  induction runs with
  | nil => intro fs _ hinv; exact hinv
  | cons catalog rest ih =>
    intro fs hruns hinv
    rw [List.foldl_cons]
    exact ih _ (fun c hc => hruns c (List.mem_cons_of_mem _ hc))
      (runPipeline_inv amap catalog fs (hruns catalog (List.mem_cons_self _ _)) hinv)

lemma countP_le_one_of_inv {details : String → FamilyInfo} :
    ∀ {fs : FS}, WriterInv details fs → ∀ fid : String,
      fs.countP (fun f => f.family_id == fid) ≤ 1 := by
  intro fs
  induction fs with
  | nil => intro _ fid; simp
  | cons f rest ih =>
    intro hinv fid
    obtain ⟨hpath, hnd⟩ := hinv
    rw [List.map_cons, List.nodup_cons] at hnd
    have hinv' : WriterInv details rest :=
      ⟨fun g hg => hpath g (List.mem_cons_of_mem _ hg), hnd.2⟩
    rw [List.countP_cons]
    by_cases hf : (f.family_id == fid) = true
    · have hrest : rest.countP (fun f => f.family_id == fid) = 0 := by
        rw [List.countP_eq_zero]
        intro g hg hgfid
        have hfid : f.family_id = fid := eq_of_beq hf
        have hgid : g.family_id = fid := eq_of_beq (by simpa using hgfid)
        have hgp : g.path = f.path := by
          rw [hpath g (List.mem_cons_of_mem _ hg), hpath f (List.mem_cons_self _ _),
            hgid, hfid]
        exact hnd.1 (by rw [← hgp]; exact List.mem_map.mpr ⟨g, hg, rfl⟩)
      simp [hf, hrest]
    · have hf' : (f.family_id == fid) = false := by simpa using hf
      simp only [hf', if_false, add_zero]
      exact ih hinv' fid

/-! ## Claim theorems: Writer dedup -/

/-- Claim C1 counterexample: two runs over a catalog whose single record id
`win.agent-x` contains a hyphen (truncated by the index regex to
`win.agent`) and whose canonical name changes from `Foo` to `Bar` between
the runs leave TWO document files on storage both declaring the id
`win.agent-x` — the claim's unconditional "at most one document per id
across any number of runs" fails. -/
theorem no_duplicate_output_counterexample :
    ((runPipeline [] [⟨"win.agent-x", 200, ⟨some "Bar", [], [], "", [], ""⟩⟩]
        (runPipeline [] [⟨"win.agent-x", 200, ⟨some "Foo", [], [], "", [], ""⟩⟩] []).2).2.countP
      (fun f => f.family_id == "win.agent-x")) = 2 := by
  decide

/-- Claim C1 (amended): if a file already exists at the computed output path
the Writer writes nothing and does not touch the Statistics Map; and across
any number of runs started from empty storage, PROVIDED each record id
always carries the same detail payload (in particular a stable canonical
name), at most one document file declaring any given id ever exists. -/
theorem writer_dedup_spec :
    (∀ (amap : List (String × String)) (stats : Stats) (fs : FS)
      (fid : String) (info : FamilyInfo),
      pathExists fs (outputPath fid (info.common_name.getD "")) = true →
        generate_markdown_file fid info amap fs = (fs, none) ∧
        writerProcessItem amap stats fs (fid, info) = (stats, fs)) ∧
    (∀ (amap : List (String × String)) (details : String → FamilyInfo)
      (runs : List (List CatalogEntry)) (fid : String),
      (∀ catalog ∈ runs, ∀ e ∈ catalog, e.family_info = details e.family_id) →
        ((runs.foldl (fun fs catalog => (runPipeline amap catalog fs).2) []).countP
          (fun f => f.family_id == fid)) ≤ 1) := by
  constructor
  · intro amap stats fs fid info h
    exact ⟨generate_skip_existing h, writerProcessItem_skip_existing h⟩
  · intro amap details runs fid hruns
    exact countP_le_one_of_inv
      (runsFold_inv amap runs [] hruns ⟨by simp, by simp⟩) fid

/-- Claim C1 witness: a Writer step over storage already holding the record's
output path changes neither storage nor statistics, and a concrete two-run
history with a stable catalog holds at most one `win.wit` document. -/
theorem writer_dedup_spec_witness :
    (generate_markdown_file "win.wit" ⟨some "Wit", [], [], "", [], ""⟩ []
        [⟨"Malware/Windows/Wit.md", "win.wit"⟩] =
      ([⟨"Malware/Windows/Wit.md", "win.wit"⟩], none) ∧
      writerProcessItem [] [] [⟨"Malware/Windows/Wit.md", "win.wit"⟩]
        ("win.wit", ⟨some "Wit", [], [], "", [], ""⟩) =
      ([], [⟨"Malware/Windows/Wit.md", "win.wit"⟩])) ∧
    (([[⟨"win.wit", 200, ⟨some "Wit", [], [], "", [], ""⟩⟩],
       [⟨"win.wit", 200, ⟨some "Wit", [], [], "", [], ""⟩⟩]].foldl
        (fun fs catalog => (runPipeline [] catalog fs).2) []).countP
      (fun f => f.family_id == "win.wit")) ≤ 1 :=
  ⟨writer_dedup_spec.1 [] [] [⟨"Malware/Windows/Wit.md", "win.wit"⟩] "win.wit"
      ⟨some "Wit", [], [], "", [], ""⟩ (by decide),
   writer_dedup_spec.2 [] (fun _ => ⟨some "Wit", [], [], "", [], ""⟩)
      [[⟨"win.wit", 200, ⟨some "Wit", [], [], "", [], ""⟩⟩],
       [⟨"win.wit", 200, ⟨some "Wit", [], [], "", [], ""⟩⟩]] "win.wit" (by decide)⟩

/-! ## Claim theorems: Alias Map construction -/

/-- Claim C5 counterexample: for the spreadsheet row with first column
`"Lazarus"`, the builder inserts the entry `("LAZARUS", "LAZARUS")` — the
value is the UPPER-CASED first-column name, not the first-column canonical
name `"Lazarus"` itself as the claim states. -/
theorem attribution_value_counterexample :
    spreadsheetRowEntries ["Lazarus"] = [("LAZARUS", "LAZARUS")] ∧
      ("LAZARUS" : String) ≠ "Lazarus" :=
  ⟨by decide, by decide⟩

/-- Claim C5 (amended): every inserted entry keys the upper-cased form of a
canonical or alternate name; the value is the canonical display name itself
for partition documents, but for spreadsheet rows it is the upper-cased,
whitespace-trimmed first-column name (for the canonical entry and every
comma-separated alternate alike). -/
theorem attribution_map_entry_shape :
    (∀ (d : PartitionDoc) (k v : String), (k, v) ∈ partitionDocEntries d →
      v = d.primary_name ∧
        (k = pyUpper d.primary_name ∨ ∃ alt ∈ d.alt_names, k = pyUpper alt)) ∧
    (∀ (row : List String) (k v : String), (k, v) ∈ spreadsheetRowEntries row →
      ∃ c0, row.head? = some c0 ∧ v = pyUpper (pyStrip c0) ∧
        (k = v ∨ ∃ cell ∈ (row.drop 1).take 12,
          ∃ piece ∈ splitOnChar ',' (pyStrip cell).data,
            k = pyUpper (pyStrip (String.mk piece)))) := by
  constructor
  · intro d k v h
    rw [partitionDocEntries] at h
    rcases List.mem_cons.mp h with heq | hmem
    · injection heq with h1 h2
      exact ⟨h2, Or.inl h1⟩
    · rw [List.mem_map] at hmem
      obtain ⟨alt, halt, heq⟩ := hmem
      injection heq with h1 h2
      exact ⟨h2.symm, Or.inr ⟨alt, halt, h1.symm⟩⟩
  · intro row k v h
    unfold spreadsheetRowEntries at h
    cases hrow : row.head? with
    | none => rw [hrow] at h; simp at h
    | some c0 =>
      rw [hrow] at h
      dsimp only at h
      by_cases hguard : (c0 != "" && c0 != "?" && pyStrip c0 != "") = true
      · rw [if_pos hguard] at h
        refine ⟨c0, rfl, ?_⟩
        rcases List.mem_cons.mp h with heq | hmem
        · injection heq with h1 h2
          exact ⟨h2, Or.inl (h1.trans h2.symm)⟩
        · rw [List.mem_flatten] at hmem
          obtain ⟨l, hl, hkv⟩ := hmem
          rw [List.mem_map] at hl
          obtain ⟨cell, hcell, rfl⟩ := hl
          by_cases hc : (cell != "") = true
          · rw [if_pos hc] at hkv
            rw [List.mem_filterMap] at hkv
            obtain ⟨piece, hpiece, hsome⟩ := hkv
            by_cases hclean : (pyUpper (pyStrip (String.mk piece)) != "") = true
            · rw [if_pos hclean] at hsome
              injection hsome with heq
              injection heq with h1 h2
              exact ⟨h2.symm, Or.inr ⟨cell, hcell, piece, hpiece, h1.symm⟩⟩
            · rw [if_neg hclean] at hsome
              exact absurd hsome (by simp)
          · rw [if_neg hc] at hkv
            simp at hkv
      · rw [if_neg hguard] at h
        simp at h

/-- Claim C5 witness: the canonical entry of a partition document and an
alternate-name entry of a spreadsheet row both satisfy the amended shape. -/
theorem attribution_map_entry_shape_witness :
    ("Group Alpha" = (⟨"Group Alpha", ["GA"]⟩ : PartitionDoc).primary_name ∧
      ("GROUP ALPHA" = pyUpper (⟨"Group Alpha", ["GA"]⟩ : PartitionDoc).primary_name ∨
        ∃ alt ∈ (⟨"Group Alpha", ["GA"]⟩ : PartitionDoc).alt_names,
          "GROUP ALPHA" = pyUpper alt)) ∧
    (∃ c0, (["Lazarus", "Hidden Cobra"] : List String).head? = some c0 ∧
      "LAZARUS" = pyUpper (pyStrip c0) ∧
      ("HIDDEN COBRA" = "LAZARUS" ∨
        ∃ cell ∈ ((["Lazarus", "Hidden Cobra"] : List String).drop 1).take 12,
          ∃ piece ∈ splitOnChar ',' (pyStrip cell).data,
            "HIDDEN COBRA" = pyUpper (pyStrip (String.mk piece)))) :=
  ⟨attribution_map_entry_shape.1 ⟨"Group Alpha", ["GA"]⟩ "GROUP ALPHA" "Group Alpha"
      (by decide),
   attribution_map_entry_shape.2 ["Lazarus", "Hidden Cobra"] "HIDDEN COBRA" "LAZARUS"
      (by decide)⟩

end Malpedia
